import Mathlib

/-!
Shallow embedding of the sequence / sampler core of the `aici` repository
(`src/infer/src/seq.rs` and `src/rllm/src/logits.rs`), together with theorems
settling the specification claims about it.

Machine integers (`u32`, `usize`) are modelled as `ℕ`; no arithmetic in the
embedded code can overflow the claims' ranges.  `f32` values are modelled as
`ℚ`.  Rust panics are modelled as `none` / a dedicated panic error value, and
`Result` as `Except`.
-/

namespace Aici

/-- A vocabulary token id (`pub type Token = u32;`). -/
abbrev Token := ℕ

/-- A sequence id (`pub type SeqId = u32;`). -/
abbrev SeqId := ℕ

/-- `FinishReason` from `src/infer/src/seq.rs`. -/
inductive FinishReason where
  | FoundEos
  | MaxTokensReached
  | Aborted
  | Failed
deriving DecidableEq, Repr

/-- `SchedulingPhase` from `src/infer/src/seq.rs`. -/
inductive SchedulingPhase where
  | Waiting
  | Running
  | Swapped
  | Finished (reason : FinishReason)
deriving DecidableEq, Repr

/-- `StepType` from `src/infer/src/seq.rs`. -/
inductive StepType where
  | Prompt
  | Fixed (n : ℕ)
  | Gen
deriving DecidableEq, Repr

/-- Modelled from the spec: `BlockRef` lives in `src/infer/src/blocks.rs`,
which is not among the provided sources.  Per the spec it is a
reference-counted capability naming one fixed-capacity slab of physical cache
slots, exposing `get_index()` and `fork()`; `fork` increments a shared
reference count without copying any cache data.  We model the handle as the
block index paired with the reference count it observes. -/
structure BlockRef where
  block_idx : ℕ
  ref_count : ℕ
deriving DecidableEq, Repr

/-- Modelled from the spec: `BlockRef::get_index()`. -/
def BlockRef.get_index (b : BlockRef) : ℕ := b.block_idx

/-- Modelled from the spec: `BlockRef::fork()` increments the shared
reference count and returns a handle to the same block; no data copy. -/
def BlockRef.fork (b : BlockRef) : BlockRef :=
  { b with ref_count := b.ref_count + 1 }

/-- `Sequence` from `src/infer/src/seq.rs`. -/
structure Sequence where
  seq_id : SeqId
  step_type : StepType
  tokens : List Token
  prompt_len : ℕ
  sched_phase : SchedulingPhase
  gpu_blocks : List BlockRef
  cpu_blocks : List BlockRef
  block_size : ℕ
deriving Repr

/-- `Sequence::_append_tokens_to_blocks` from `src/infer/src/seq.rs`:
`self.tokens.extend_from_slice(token_ids)`. -/
def Sequence.append_tokens_to_blocks (s : Sequence) (token_ids : List Token) :
    Sequence :=
  { s with tokens := s.tokens ++ token_ids }

/-- `Sequence::new` from `src/infer/src/seq.rs`. -/
def Sequence.new (seq_id : SeqId) (tokens : List Token) (block_size : ℕ) :
    Sequence :=
  let prompt_len := tokens.length
  let seq : Sequence :=
    { seq_id
      sched_phase := SchedulingPhase.Waiting
      step_type := StepType.Prompt
      tokens := []
      prompt_len
      gpu_blocks := []
      cpu_blocks := []
      block_size }
  seq.append_tokens_to_blocks tokens

/-- `Sequence::get_len`. -/
def Sequence.get_len (s : Sequence) : ℕ := s.tokens.length

/-- `Sequence::get_gen_len`. -/
def Sequence.get_gen_len (s : Sequence) : ℕ := s.tokens.length - s.prompt_len

/-- `Sequence::get_gpu_slot` from `src/infer/src/seq.rs`.  The Rust code
indexes `self.gpu_blocks[position / self.block_size]`, which panics when the
index is out of range; the panic is modelled as `none`. -/
def Sequence.get_gpu_slot (s : Sequence) (position : ℕ) : Option ℕ :=
  match s.gpu_blocks[position / s.block_size]? with
  | some b => some (b.get_index * s.block_size + position % s.block_size)
  | none => none

/-- `Sequence::fork_as` from `src/infer/src/seq.rs`, verbatim: the new
sequence starts from a clone of `self.tokens` and the constructor body then
calls `_append_tokens_to_blocks(&self.tokens)` on it. -/
def Sequence.fork_as (s : Sequence) (seq_id : SeqId) : Sequence :=
  let seq : Sequence :=
    { seq_id
      sched_phase := s.sched_phase
      step_type := s.step_type
      tokens := s.tokens
      prompt_len := s.prompt_len
      gpu_blocks := s.gpu_blocks.map BlockRef.fork
      cpu_blocks := s.cpu_blocks.map BlockRef.fork
      block_size := s.block_size }
  seq.append_tokens_to_blocks s.tokens

/-- `Sequence::append_token_id`. -/
def Sequence.append_token_id (s : Sequence) (token_id : Token) : Sequence :=
  s.append_tokens_to_blocks [token_id]

/-- `Sequence::finish_reason`. -/
def Sequence.finish_reason (s : Sequence) : Option FinishReason :=
  match s.sched_phase with
  | SchedulingPhase.Finished reason => some reason
  | _ => none

/-- `Sequence::is_finished`. -/
def Sequence.is_finished (s : Sequence) : Bool :=
  s.finish_reason.isSome

/-- Modelled from the spec: the subset of `SamplingParams`
(`src/rllm/src/config.rs`, not among the provided sources) that the embedded
code reads: temperature, top_p, best_of, use_beam_search. -/
structure SamplingParams where
  temperature : ℚ
  top_p : ℚ
  best_of : ℕ
  use_beam_search : Bool
deriving DecidableEq, Repr

/-- `SequenceGroup` from `src/infer/src/seq.rs` (the `arrival_time` field is
a monotonic timestamp only read by the external scheduler; it is modelled as
a `ℕ` tick count, and the per-group `logits_processor` is carried separately
by the sampler theorems below). -/
structure SequenceGroup where
  request_id : String
  seqs : List Sequence
  sampling_params : SamplingParams
  arrival_time : ℕ
deriving Repr

/-- `SequenceGroup::get_seqs` (filter by phase, or all when no filter). -/
def SequenceGroup.get_seqs (g : SequenceGroup)
    (status : Option SchedulingPhase) : List Sequence :=
  match status with
  | some status_filter => g.seqs.filter (fun seq => seq.sched_phase = status_filter)
  | none => g.seqs

/-- `SequenceGroup::num_seqs`. -/
def SequenceGroup.num_seqs (g : SequenceGroup)
    (status : Option SchedulingPhase) : ℕ :=
  (g.get_seqs status).length

/-- `SequenceGroup::get_max_num_running_seqs` from `src/infer/src/seq.rs`. -/
def SequenceGroup.get_max_num_running_seqs (g : SequenceGroup) : ℕ :=
  if g.sampling_params.use_beam_search then
    g.sampling_params.best_of
  else
    if g.num_seqs none < g.sampling_params.best_of then
      g.sampling_params.best_of
    else
      g.num_seqs (some SchedulingPhase.Running)

/-- `SequenceGroup::only_seq` from `src/infer/src/seq.rs`; the `panic!`
branch is modelled as `none`. -/
def SequenceGroup.only_seq (g : SequenceGroup) : Option Sequence :=
  if g.seqs.length = 1 then g.seqs.head? else none

/-- `SequenceGroup::is_finished`: all member sequences finished. -/
def SequenceGroup.is_finished (g : SequenceGroup) : Bool :=
  g.seqs.all (fun seq => seq.is_finished)

/-! ### Sampler embedding (`src/rllm/src/logits.rs`) -/

/-- Modelled from the spec: `SAMPLING_EPS` (defined in `src/rllm/src/config.rs`,
not among the provided sources) is the small epsilon threshold below which the
temperature is treated as zero (greedy mode). -/
def SAMPLING_EPS : ℚ := 1 / 100000

/-- Sampling / panic outcomes: Rust `Err(_)` results are `err`, Rust panics
(out-of-bounds indexing) are `panic`. -/
inductive SampleErr where
  | panic (msg : String)
  | err (msg : String)
deriving DecidableEq, Repr

/-- Modelled 64-bit PRNG state step for `rand::rngs::StdRng` (external crate):
a deterministic linear-congruential step stands in for the actual generator;
only determinism and the range of the produced fraction matter to the claims. -/
def rngStep (s : ℕ) : ℕ :=
  (s * 6364136223846793005 + 1442695040888963407) % 2 ^ 64

/-- One draw of a uniform fraction in the unit interval (1 excluded),
together with the successor rng state. -/
def rngNext (s : ℕ) : ℚ × ℕ :=
  let s2 := rngStep s
  ((s2 : ℚ) / 2 ^ 64, s2)

/-- Modelled `StdRng::seed_from_u64`. -/
def stdRngSeedFromU64 (seed : ℕ) : ℕ := rngStep (seed % 2 ^ 64)

/-- `LogitsProcessor` from `src/rllm/src/logits.rs`.  The `tokenizer` handle
is used only to format log messages and is omitted from the state. -/
structure LogitsProcessor where
  rng : ℕ
  temperature : Option ℚ
  top_p : ℚ
  num_ambiguous : ℕ
deriving DecidableEq, Repr

/-- `LogitsProcessor::new`: temperature below `SAMPLING_EPS` means greedy
(None); the rng is seeded with the fixed constant 42. -/
def LogitsProcessor.new (sampling_params : SamplingParams) : LogitsProcessor :=
  { rng := stdRngSeedFromU64 42
    temperature :=
      if sampling_params.temperature < SAMPLING_EPS then none
      else some sampling_params.temperature
    top_p := sampling_params.top_p
    num_ambiguous := 0 }

/-- The comparator of `sort_by(|u, v| v.1.total_cmp(&u.1))` on enumerated
(index, value) pairs: `x` may precede `y` when `y`'s value does not exceed
`x`'s (descending order by value; the stable sort keeps ties in original
order). -/
def pairGE (x y : ℕ × ℚ) : Prop := y.2 ≤ x.2

instance : DecidableRel pairGE :=
  fun x y => inferInstanceAs (Decidable (y.2 ≤ x.2))

instance : IsTotal (ℕ × ℚ) pairGE := ⟨fun x y => le_total y.2 x.2⟩

instance : IsTrans (ℕ × ℚ) pairGE := ⟨fun _ _ _ h1 h2 => le_trans h2 h1⟩

/-- `LogitsProcessor::sample_argmax`: enumerate, stable-sort by descending
logit, compute the relative margin `d` between the two best logits, flag
`d < 0.05` by incrementing `num_ambiguous` (logging only), and return the
top index.  Indexing `logits_v[0]` / `logits_v[1]` panics when there are
fewer than two entries. -/
def LogitsProcessor.sample_argmax (p : LogitsProcessor) (logits : List ℚ) :
    Except SampleErr (Token × LogitsProcessor) :=
  match List.insertionSort pairGE logits.enum with
  | (i0, v0) :: (_, v1) :: _ =>
    let d := (v0 - v1) / v0
    if d < 1 / 20 then
      Except.ok (i0, { p with num_ambiguous := p.num_ambiguous + 1 })
    else
      Except.ok (i0, p)
  | _ => Except.error (SampleErr.panic "index out of bounds")

/-- Models `rand::distributions::WeightedIndex::new` (external crate), per
its documented contract: error on an empty weight list, on any negative
weight, and on a zero total weight; otherwise the weights are accepted. -/
def weightedIndexNew (prs : List ℚ) : Except SampleErr (List ℚ) :=
  if prs.isEmpty then Except.error (SampleErr.err "WeightedError::NoItem")
  else if prs.any (fun w => w < 0) then
    Except.error (SampleErr.err "WeightedError::InvalidWeight")
  else if prs.sum = 0 then
    Except.error (SampleErr.err "WeightedError::AllWeightsZero")
  else Except.ok prs

/-- Models `WeightedIndex::sample`: pick the first index whose cumulative
weight strictly exceeds a uniform draw `x` between 0 and the total weight. -/
def pickIndex : List ℚ → ℚ → ℕ
  | [], _ => 0
  | w :: ws, x => if x < w then 0 else pickIndex ws (x - w) + 1

/-- `LogitsProcessor::sample_multinomial`. -/
def LogitsProcessor.sample_multinomial (p : LogitsProcessor) (prs : List ℚ) :
    Except SampleErr (Token × LogitsProcessor) :=
  match weightedIndexNew prs with
  | Except.error e => Except.error e
  | Except.ok ws =>
    let u := rngNext p.rng
    Except.ok (pickIndex ws (u.1 * ws.sum), { p with rng := u.2 })

/-- Indices of `prs` sorted by descending probability: the Rust code sorts
an index vector with `sort_by(|i, j| prs[j].partial_cmp(&prs[i]))`; sorting
the enumerated pairs by descending value and projecting to the indices gives
the same stable order. -/
def argsortDesc (prs : List ℚ) : List ℕ :=
  (List.insertionSort pairGE prs.enum).map Prod.fst

/-- One iteration of the clamping loop of `sample_topp`: once the running
sum has reached `top_p`, zero the entry; otherwise accumulate it. -/
def toppStep (top_p : ℚ) (cv : ℚ × List ℚ) (index : ℕ) : ℚ × List ℚ :=
  if top_p ≤ cv.1 then (cv.1, cv.2.set index 0)
  else (cv.1 + cv.2.getD index 0, cv.2)

/-- The probability vector produced by the clamping loop of `sample_topp`. -/
def toppFilter (prs : List ℚ) (top_p : ℚ) : List ℚ :=
  ((argsortDesc prs).foldl (toppStep top_p) (0, prs)).2

/-- `LogitsProcessor::sample_topp`: clamp, then sample multinomially from
the modified vector. -/
def LogitsProcessor.sample_topp (p : LogitsProcessor) (prs : List ℚ)
    (top_p : ℚ) : Except SampleErr (Token × LogitsProcessor) :=
  p.sample_multinomial (toppFilter prs top_p)

/-- `LogitsProcessor::sample`.  The softmax over the vocabulary axis is an
external tensor operation (the candle crate); it is passed in as a function
so that the control flow of `sample` itself is embedded exactly. -/
def LogitsProcessor.sample (softmax : List ℚ → List ℚ) (p : LogitsProcessor)
    (logits : List ℚ) : Except SampleErr (Token × LogitsProcessor) :=
  match p.temperature with
  | none => p.sample_argmax logits
  | some temperature =>
    let prs := softmax (logits.map (fun l => l / temperature))
    if p.top_p ≤ 0 ∨ 1 ≤ p.top_p then p.sample_multinomial prs
    else p.sample_topp prs p.top_p

/-- Feeding a list of logits vectors through one processor, threading its
state; used to state sampler determinism. -/
def runSamples (softmax : List ℚ → List ℚ) :
    LogitsProcessor → List (List ℚ) → List (Except SampleErr Token)
  | _, [] => []
  | p, l :: ls =>
    match p.sample softmax l with
    | Except.ok tp => Except.ok tp.1 :: runSamples softmax tp.2 ls
    | Except.error e => Except.error e :: runSamples softmax p ls

/-- The running sum accumulated before index `k` is reached in the
descending walk over `prs`. -/
def sortedPrefixSum (prs : List ℚ) (k : ℕ) : ℚ :=
  (((argsortDesc prs).takeWhile (fun i => i ≠ k)).map
    (fun i => prs.getD i 0)).sum

/-- C3 refinement reference, following the spec text: the entry at `k` is
zeroed exactly when the running sum accumulated before reaching `k` in the
descending-probability walk already reaches or exceeds `top_p`; all other
entries are kept. -/
def toppZeroSpec (prs : List ℚ) (top_p : ℚ) : List ℚ :=
  (List.range prs.length).map
    (fun k => if top_p ≤ sortedPrefixSum prs k then 0 else prs.getD k 0)

/-! ### Concrete instances used by witnesses -/

/-- A sequence in Running phase, for concrete scheduling scenarios. -/
def seqRun (i : ℕ) : Sequence :=
  { Sequence.new i [0] 16 with sched_phase := SchedulingPhase.Running }

/-- A sequence in Finished(FoundEos) phase. -/
def seqFin (i : ℕ) : Sequence :=
  { Sequence.new i [0] 16 with
      sched_phase := SchedulingPhase.Finished FinishReason.FoundEos }

/-- Sampling parameters with best_of = 3, no beam search. -/
def spB3 : SamplingParams :=
  { temperature := 1, top_p := 1, best_of := 3, use_beam_search := false }

/-- A group at prompt stage: one Waiting member, best_of = 3. -/
def groupPrompt : SequenceGroup :=
  { request_id := "g1", seqs := [Sequence.new 0 [0] 16],
    sampling_params := spB3, arrival_time := 0 }

/-- A fully expanded group: three Running members, best_of = 3. -/
def groupRun3 : SequenceGroup :=
  { request_id := "g2", seqs := [seqRun 0, seqRun 1, seqRun 2],
    sampling_params := spB3, arrival_time := 0 }

/-- The same group after one member finished. -/
def groupRun2Fin1 : SequenceGroup :=
  { request_id := "g3", seqs := [seqRun 0, seqRun 1, seqFin 2],
    sampling_params := spB3, arrival_time := 0 }

/-- A beam-search group with best_of = 4 and a single Running member. -/
def groupBeam : SequenceGroup :=
  { request_id := "g4", seqs := [seqRun 0],
    sampling_params := { temperature := 1, top_p := 1, best_of := 4, use_beam_search := true },
    arrival_time := 0 }

/-- A single-member group for the only_seq witness. -/
def groupC9 : SequenceGroup :=
  { request_id := "r0", seqs := [Sequence.new 5 [1] 4],
    sampling_params := spB3, arrival_time := 0 }

/-- A sequence with two gpu blocks (indices 3 and 7) and block_size 2. -/
def seqC2 : Sequence :=
  { seq_id := 0, step_type := StepType.Gen, tokens := [9, 9, 9], prompt_len := 1,
    sched_phase := SchedulingPhase.Running,
    gpu_blocks := [⟨3, 1⟩, ⟨7, 1⟩], cpu_blocks := [], block_size := 2 }

/-- A greedy processor: temperature 0 is below `SAMPLING_EPS`. -/
def procG : LogitsProcessor :=
  LogitsProcessor.new { temperature := 0, top_p := 1, best_of := 1, use_beam_search := false }

/-! ### Helper lemmas about the sampler embedding -/

lemma mem_enum_getD {l : List ℚ} {i : ℕ} {x : ℚ} (h : (i, x) ∈ l.enum) :
    i < l.length ∧ l.getD i 0 = x := by
  rw [List.mk_mem_enum_iff_getElem?] at h
  obtain ⟨hlt, hx⟩ := List.getElem?_eq_some.mp h
  exact ⟨hlt, by rw [List.getD_eq_getElem?_getD, h]; rfl⟩

lemma enum_nodup (l : List ℚ) : l.enum.Nodup := by
  have h : (l.enum.map Prod.fst).Nodup := by
    rw [List.enum_map_fst]; exact List.nodup_range _
  exact h.of_map Prod.fst

lemma getD_set_ne (v : List ℚ) (i j : ℕ) (x : ℚ) (h : i ≠ j) :
    (v.set i x).getD j 0 = v.getD j 0 := by
  rw [List.getD_eq_getElem?_getD, List.getD_eq_getElem?_getD,
    List.getElem?_set_ne h]

lemma getD_set_self (v : List ℚ) (i : ℕ) (x : ℚ) (h : i < v.length) :
    (v.set i x).getD i 0 = x := by
  rw [List.getD_eq_getElem?_getD, List.getElem?_set_self (by simpa using h)]
  rfl

lemma takeWhile_getD_sum_nonneg (orig : List ℚ) (hnn : ∀ x ∈ orig, 0 ≤ x)
    (t : List ℕ) (ht : ∀ i ∈ t, i < orig.length) (pred : ℕ → Bool) :
    0 ≤ ((t.takeWhile pred).map (fun i => orig.getD i 0)).sum := by
  apply List.sum_nonneg
  intro x hx
  obtain ⟨i, hi, rfl⟩ := List.mem_map.mp hx
  have hit : i ∈ t := (List.takeWhile_sublist pred).subset hi
  have hlt := ht i hit
  rw [List.getD_eq_getElem _ 0 hlt]
  exact hnn _ (List.getElem_mem hlt)

lemma toppFold_length (top_p : ℚ) :
    ∀ (l : List ℕ) (c : ℚ) (v : List ℚ),
      ((l.foldl (toppStep top_p) (c, v)).2).length = v.length := by
  intro l
  induction l with
  | nil => intro c v; rfl
  | cons i t ih =>
    intro c v
    simp only [List.foldl_cons, toppStep]
    by_cases h : top_p ≤ c
    · rw [if_pos h, ih]
      simp
    · rw [if_neg h, ih]

lemma argsortDesc_perm (prs : List ℚ) :
    List.Perm (argsortDesc prs) (List.range prs.length) := by
  unfold argsortDesc
  have h1 := (List.perm_insertionSort pairGE prs.enum).map Prod.fst
  rw [List.enum_map_fst] at h1
  exact h1

lemma argsortDesc_nodup (prs : List ℚ) : (argsortDesc prs).Nodup :=
  (argsortDesc_perm prs).nodup_iff.mpr (List.nodup_range _)

lemma mem_argsortDesc (prs : List ℚ) (k : ℕ) :
    k ∈ argsortDesc prs ↔ k < prs.length := by
  rw [(argsortDesc_perm prs).mem_iff, List.mem_range]

lemma pickIndex_pos (prs : List ℚ) :
    ∀ (x : ℚ), 0 ≤ x → x < prs.sum → (∀ w ∈ prs, 0 ≤ w) →
      pickIndex prs x < prs.length ∧ 0 < prs.getD (pickIndex prs x) 0 := by
  induction prs with
  | nil =>
    intro x hx0 hxs _
    simp only [List.sum_nil] at hxs
    exact absurd (lt_of_le_of_lt hx0 hxs) (lt_irrefl 0)
  | cons w ws ih =>
    intro x hx0 hxs hnn
    by_cases h : x < w
    · refine ⟨by simp [pickIndex, h], ?_⟩
      simp only [pickIndex, if_pos h]
      exact lt_of_le_of_lt hx0 h
    · have hw : w ≤ x := not_lt.mp h
      have hsum : x - w < ws.sum := by
        simp only [List.sum_cons] at hxs
        linarith
      have hrec := ih (x - w) (by linarith) hsum
        (fun a ha => hnn a (List.mem_cons_of_mem _ ha))
      refine ⟨?_, ?_⟩
      · simp only [pickIndex, if_neg h, List.length_cons]
        exact Nat.succ_lt_succ hrec.1
      · simp only [pickIndex, if_neg h, List.getD_cons_succ]
        exact hrec.2

lemma rngNext_unit (s : ℕ) : 0 ≤ (rngNext s).1 ∧ (rngNext s).1 < 1 := by
  unfold rngNext rngStep
  constructor
  · positivity
  · rw [div_lt_one (by positivity)]
    have h : (s * 6364136223846793005 + 1442695040888963407) % 2 ^ 64 < 2 ^ 64 :=
      Nat.mod_lt _ (by positivity)
    exact_mod_cast h

lemma toppFold_getD (top_p : ℚ) (orig : List ℚ) (hnn : ∀ x ∈ orig, 0 ≤ x) :
    ∀ (l : List ℕ) (v : List ℚ) (c : ℚ), l.Nodup →
      (∀ i ∈ l, i < orig.length ∧ v.getD i 0 = orig.getD i 0) →
      v.length = orig.length →
      ∀ k, ((l.foldl (toppStep top_p) (c, v)).2).getD k 0 =
        if k ∈ l ∧ top_p ≤ c + ((l.takeWhile (fun i => i ≠ k)).map
            (fun i => orig.getD i 0)).sum
        then 0 else v.getD k 0 := by
  intro l
  induction l with
  | nil =>
    intro v c _ _ _ k
    simp
  | cons i t ih =>
    intro v c hnd hag hlen k
    have hit : i ∉ t := (List.nodup_cons.mp hnd).1
    have hndt : t.Nodup := (List.nodup_cons.mp hnd).2
    have hti : ∀ j ∈ t, j < orig.length := fun j hj =>
      (hag j (List.mem_cons_of_mem _ hj)).1
    have hio : i < orig.length := (hag i (List.mem_cons_self _ _)).1
    have hiv : v.getD i 0 = orig.getD i 0 := (hag i (List.mem_cons_self _ _)).2
    have hoi : 0 ≤ orig.getD i 0 := by
      rw [List.getD_eq_getElem _ 0 hio]
      exact hnn _ (List.getElem_mem hio)
    simp only [List.foldl_cons, toppStep]
    by_cases hc : top_p ≤ c
    · -- frozen: the current and all subsequent entries are zeroed
      rw [if_pos hc]
      have hag2 : ∀ j ∈ t, j < orig.length ∧
          (v.set i 0).getD j 0 = orig.getD j 0 := by
        intro j hj
        have hji : i ≠ j := fun he => hit (he ▸ hj)
        exact ⟨hti j hj, by rw [getD_set_ne _ _ _ _ hji]; exact
          (hag j (List.mem_cons_of_mem _ hj)).2⟩
      have hrec := ih (v.set i 0) c hndt hag2 (by simpa using hlen) k
      rw [hrec]
      by_cases hk : k = i
      · subst hk
        have hktw : List.takeWhile (fun j : ℕ => decide (j ≠ k)) (k :: t) = [] := by
          rw [List.takeWhile_cons]
          simp
        rw [if_neg (fun hcon => hit hcon.1)]
        rw [getD_set_self _ _ _ (by rw [hlen]; exact hio)]
        have hpos : k ∈ k :: t ∧ top_p ≤ c + ((List.takeWhile
            (fun j : ℕ => decide (j ≠ k)) (k :: t)).map
            (fun j => orig.getD j 0)).sum := by
          refine ⟨List.mem_cons_self _ _, ?_⟩
          rw [hktw]
          simpa using hc
        rw [if_pos hpos]
      · have hik : i ≠ k := fun he => hk he.symm
        have hkt : List.takeWhile (fun j : ℕ => decide (j ≠ k)) (i :: t)
            = i :: List.takeWhile (fun j : ℕ => decide (j ≠ k)) t := by
          rw [List.takeWhile_cons]
          simp [hik]
        have hsum1 : 0 ≤ ((t.takeWhile (fun j : ℕ => decide (j ≠ k))).map
            (fun j => orig.getD j 0)).sum :=
          takeWhile_getD_sum_nonneg orig hnn t hti _
        by_cases hkm : k ∈ t
        · have h1 : k ∈ t ∧ top_p ≤ c + ((List.takeWhile
              (fun j : ℕ => decide (j ≠ k)) t).map
              (fun j => orig.getD j 0)).sum :=
            ⟨hkm, by linarith⟩
          rw [if_pos h1]
          have h2 : k ∈ i :: t ∧ top_p ≤ c + ((List.takeWhile
              (fun j : ℕ => decide (j ≠ k)) (i :: t)).map
              (fun j => orig.getD j 0)).sum := by
            refine ⟨List.mem_cons_of_mem _ hkm, ?_⟩
            rw [hkt]
            simp only [List.map_cons, List.sum_cons]
            linarith
          rw [if_pos h2]
        · rw [if_neg (fun hcon => hkm hcon.1)]
          rw [if_neg (by
            intro hcon
            rcases List.mem_cons.mp hcon.1 with h1 | h2
            · exact hk h1
            · exact hkm h2)]
          exact getD_set_ne _ _ _ _ hik
    · -- still accumulating
      rw [if_neg hc, hiv]
      have hrec := ih v (c + orig.getD i 0) hndt
        (fun j hj => hag j (List.mem_cons_of_mem _ hj)) hlen k
      rw [hrec]
      by_cases hk : k = i
      · subst hk
        have hktw : List.takeWhile (fun j : ℕ => decide (j ≠ k)) (k :: t) = [] := by
          rw [List.takeWhile_cons]
          simp
        rw [if_neg (fun hcon => hit hcon.1)]
        rw [if_neg (by
          intro hcon
          rw [hktw] at hcon
          simp only [List.map_nil, List.sum_nil, add_zero] at hcon
          exact hc hcon.2)]
      · have hik : i ≠ k := fun he => hk he.symm
        have hkt : List.takeWhile (fun j : ℕ => decide (j ≠ k)) (i :: t)
            = i :: List.takeWhile (fun j : ℕ => decide (j ≠ k)) t := by
          rw [List.takeWhile_cons]
          simp [hik]
        rw [hkt]
        simp only [List.map_cons, List.sum_cons, List.mem_cons,
          or_iff_right hk, add_assoc]


/-! ### Claim theorems for `src/infer/src/seq.rs` -/

/-- C1: `fork_as` preserves phase, step_type, prompt_len and obtains both
block lists by `fork()`-ing every source block (no data copy); but contrary
to the claim the forked token buffer is NOT equal to the parent's: `fork_as`
clones `self.tokens` and then calls `_append_tokens_to_blocks(&self.tokens)`,
which appends the tokens a second time, so the forked buffer is the parent's
buffer repeated twice.  On the parent `Sequence::new(0, [1,2], 16)` the fork
has tokens `[1,2,1,2]`. -/
theorem C1_fork_as_token_buffer_doubled :
    (∀ (s : Sequence) (new_id : SeqId),
        (s.fork_as new_id).tokens = s.tokens ++ s.tokens ∧
        (s.fork_as new_id).sched_phase = s.sched_phase ∧
        (s.fork_as new_id).step_type = s.step_type ∧
        (s.fork_as new_id).prompt_len = s.prompt_len ∧
        (s.fork_as new_id).seq_id = new_id ∧
        (s.fork_as new_id).gpu_blocks = s.gpu_blocks.map BlockRef.fork ∧
        (s.fork_as new_id).cpu_blocks = s.cpu_blocks.map BlockRef.fork ∧
        (∀ b ∈ s.gpu_blocks, b.fork.ref_count = b.ref_count + 1 ∧
            b.fork.get_index = b.get_index)) ∧
    ((Sequence.new 0 [1, 2] 16).fork_as 1).tokens = [1, 2, 1, 2] ∧
    (Sequence.new 0 [1, 2] 16).tokens = [1, 2] := by
  refine ⟨?_, by decide, by decide⟩
  intro s new_id
  refine ⟨rfl, rfl, rfl, rfl, rfl, rfl, rfl, ?_⟩
  intro b _
  exact ⟨rfl, rfl⟩

/-- C2: `get_gpu_slot(p)` equals
`gpu_blocks[p / block_size].index() * block_size + p % block_size` whenever
`p / block_size` is inside the gpu block list; it is injective on in-range
positions provided the block indices in the list are pairwise distinct; and
for `p / block_size` outside the list the lookup fails (models the Rust
index-out-of-range panic as `none`). -/
theorem C2_get_gpu_slot_spec (s : Sequence) (hbs : 0 < s.block_size) :
    (∀ p (h : p / s.block_size < s.gpu_blocks.length),
        s.get_gpu_slot p =
          some ((s.gpu_blocks.get ⟨p / s.block_size, h⟩).get_index * s.block_size
            + p % s.block_size)) ∧
    ((s.gpu_blocks.map BlockRef.get_index).Nodup →
        ∀ p q, p / s.block_size < s.gpu_blocks.length →
          q / s.block_size < s.gpu_blocks.length →
          s.get_gpu_slot p = s.get_gpu_slot q → p = q) ∧
    (∀ p, s.gpu_blocks.length ≤ p / s.block_size → s.get_gpu_slot p = none) := by
  have formula : ∀ p (h : p / s.block_size < s.gpu_blocks.length),
      s.get_gpu_slot p =
        some ((s.gpu_blocks.get ⟨p / s.block_size, h⟩).get_index * s.block_size
          + p % s.block_size) := by
    intro p h
    simp [Sequence.get_gpu_slot, List.getElem?_eq_getElem h]
  refine ⟨formula, ?_, ?_⟩
  · intro hnd p q hp hq heq
    rw [formula p hp, formula q hq] at heq
    have heq2 := Option.some_injective _ heq
    set ip := p / s.block_size with hip
    set iq := q / s.block_size with hiq
    have hmp : p % s.block_size < s.block_size := Nat.mod_lt _ hbs
    have hmq : q % s.block_size < s.block_size := Nat.mod_lt _ hbs
    -- uniqueness of Euclidean decomposition
    have hidx : (s.gpu_blocks.get ⟨ip, hp⟩).get_index
        = (s.gpu_blocks.get ⟨iq, hq⟩).get_index := by
      have h1 := congrArg (fun n => n / s.block_size) heq2
      simpa [Nat.mul_add_div hbs, Nat.div_eq_of_lt, hmp, hmq,
        Nat.mul_comm] using h1
    have hmod : p % s.block_size = q % s.block_size := by
      have h2 := congrArg (fun n => n % s.block_size) heq2
      simp only [Nat.mul_add_mod', Nat.mod_eq_of_lt hmp, Nat.mod_eq_of_lt hmq] at h2
      exact h2
    have hp2 : ip < (s.gpu_blocks.map BlockRef.get_index).length := by
      simpa using hp
    have hq2 : iq < (s.gpu_blocks.map BlockRef.get_index).length := by
      simpa using hq
    have hmap : (s.gpu_blocks.map BlockRef.get_index).get ⟨ip, hp2⟩
        = (s.gpu_blocks.map BlockRef.get_index).get ⟨iq, hq2⟩ := by
      simpa [List.get_eq_getElem, List.getElem_map] using hidx
    have hdiv : ip = iq := by
      have h3 := (List.Nodup.get_inj_iff hnd).mp hmap
      exact congrArg Fin.val h3
    calc p = s.block_size * ip + p % s.block_size := (Nat.div_add_mod p _).symm
      _ = s.block_size * iq + q % s.block_size := by rw [hdiv, hmod]
      _ = q := Nat.div_add_mod q _
  · intro p h
    simp [Sequence.get_gpu_slot, List.getElem?_eq_none h]

/-- C2 witness: on a concrete sequence with blocks [3, 7] and block_size 2,
position 3 maps to slot 7*2 + 1 = 15, and position 4 is out of range. -/
theorem C2_get_gpu_slot_witness :
    0 < seqC2.block_size ∧ seqC2.get_gpu_slot 3 = some 15 ∧
      seqC2.get_gpu_slot 4 = none := by
  have h := C2_get_gpu_slot_spec seqC2 (by decide)
  refine ⟨by decide, ?_, h.2.2 4 (by decide)⟩
  simpa using h.1 3 (by decide)

/-- C5: `get_max_num_running_seqs` returns best_of when beam search is on;
otherwise best_of while the member count is below best_of, and the Running
member count once the group is fully expanded.  Concrete scenarios: beam
search best_of=4 gives 4; best_of=3 with one member gives 3; three Running
members give 3; two Running plus one Finished give 2. -/
theorem C5_get_max_num_running_seqs_spec :
    (∀ g : SequenceGroup, g.sampling_params.use_beam_search = true →
        g.get_max_num_running_seqs = g.sampling_params.best_of) ∧
    (∀ g : SequenceGroup, g.sampling_params.use_beam_search = false →
        g.num_seqs none < g.sampling_params.best_of →
        g.get_max_num_running_seqs = g.sampling_params.best_of) ∧
    (∀ g : SequenceGroup, g.sampling_params.use_beam_search = false →
        g.sampling_params.best_of ≤ g.num_seqs none →
        g.get_max_num_running_seqs = g.num_seqs (some SchedulingPhase.Running)) ∧
    groupBeam.get_max_num_running_seqs = 4 ∧
    groupPrompt.get_max_num_running_seqs = 3 ∧
    groupRun3.get_max_num_running_seqs = 3 ∧
    groupRun2Fin1.get_max_num_running_seqs = 2 := by
  refine ⟨?_, ?_, ?_, by decide, by decide, by decide, by decide⟩
  · intro g hb
    simp [SequenceGroup.get_max_num_running_seqs, hb]
  · intro g hb hlt
    simp [SequenceGroup.get_max_num_running_seqs, hb, hlt]
  · intro g hb hge
    simp [SequenceGroup.get_max_num_running_seqs, hb, Nat.not_lt.mpr hge]

/-- C5 witness: the beam-search branch applied to the concrete beam group. -/
theorem C5_get_max_num_running_seqs_witness :
    groupBeam.sampling_params.use_beam_search = true ∧
      groupBeam.get_max_num_running_seqs = groupBeam.sampling_params.best_of :=
  ⟨rfl, C5_get_max_num_running_seqs_spec.1 groupBeam rfl⟩

/-- C8: a group is finished iff every member sequence is finished; a
sequence is finished exactly when its phase is `Finished(reason)`; for a
single-member group this reduces to that member's own state. -/
theorem C8_is_finished_iff_all (g : SequenceGroup) :
    (g.is_finished = true ↔ ∀ s ∈ g.seqs, s.is_finished = true) ∧
    (∀ s : Sequence, s.is_finished = true ↔
        ∃ r, s.sched_phase = SchedulingPhase.Finished r) ∧
    (∀ rid sp t (s : Sequence),
        (SequenceGroup.mk rid [s] sp t).is_finished = s.is_finished) := by
  refine ⟨?_, ?_, ?_⟩
  · simp [SequenceGroup.is_finished, List.all_eq_true]
  · intro s
    unfold Sequence.is_finished Sequence.finish_reason
    cases h : s.sched_phase <;> simp
  · intro rid sp t s
    simp [SequenceGroup.is_finished]

/-- C9: `only_seq` returns the sole member when the group has exactly one
sequence, and fails (models the Rust `panic!` as `none`) when the member
count differs from 1; under the precondition `seqs.len() == 1` the panic
branch is unreachable. -/
theorem C9_only_seq_spec (g : SequenceGroup) :
    (g.seqs.length = 1 → ∃ s, g.only_seq = some s ∧ g.seqs = [s]) ∧
    (g.seqs.length ≠ 1 → g.only_seq = none) := by
  constructor
  · intro h
    obtain ⟨s, hs⟩ := List.length_eq_one.mp h
    exact ⟨s, by simp [SequenceGroup.only_seq, hs], hs⟩
  · intro h
    simp [SequenceGroup.only_seq, h]

/-- C9 witness: on a concrete single-member group, only_seq succeeds. -/
theorem C9_only_seq_witness :
    groupC9.seqs.length = 1 ∧
      ∃ s, groupC9.only_seq = some s ∧ groupC9.seqs = [s] :=
  ⟨rfl, (C9_only_seq_spec groupC9).1 rfl⟩

/-! ### Claim theorems for `src/rllm/src/logits.rs` -/

/-- C6: `sample_multinomial` fails on an invalid weight vector (all entries
zero, or some entry negative) with a sampling error, not a token; on a valid
weight vector it returns the index of an entry with nonzero weight; and
`sample` passes the multinomial result through unchanged (the `?` operator
propagates the error to the caller instead of coercing it). -/
theorem C6_sample_multinomial_spec :
    (∀ (p : LogitsProcessor) (prs : List ℚ),
        ((∀ w ∈ prs, w = 0) ∨ (∃ w ∈ prs, w < 0)) →
        ∃ e, p.sample_multinomial prs = Except.error (SampleErr.err e)) ∧
    (∀ (p : LogitsProcessor) (prs : List ℚ),
        (∀ w ∈ prs, 0 ≤ w) → 0 < prs.sum →
        ∃ i p2, p.sample_multinomial prs = Except.ok (i, p2) ∧
          i < prs.length ∧ prs.getD i 0 ≠ 0) ∧
    (∀ (softmax : List ℚ → List ℚ) (p : LogitsProcessor) (logits : List ℚ)
        (t : ℚ), p.temperature = some t → (p.top_p ≤ 0 ∨ 1 ≤ p.top_p) →
        p.sample softmax logits
          = p.sample_multinomial (softmax (logits.map (fun l => l / t)))) := by
  refine ⟨?_, ?_, ?_⟩
  · intro p prs h
    have hwi : ∃ msg, weightedIndexNew prs = Except.error (SampleErr.err msg) := by
      unfold weightedIndexNew
      rcases h with hall | ⟨w, hw, hneg⟩
      · by_cases he : prs.isEmpty
        · rw [if_pos he]
          exact ⟨_, rfl⟩
        · have hany : prs.any (fun w => decide (w < 0)) = false := by
            rw [List.any_eq_false]
            intro x hx
            simp [hall x hx]
          have hsum : prs.sum = 0 := List.sum_eq_zero hall
          rw [if_neg he, if_neg (by simp [hany]), if_pos hsum]
          exact ⟨_, rfl⟩
      · have hne : ¬ prs.isEmpty = true := by
          rcases prs with _ | ⟨a, l⟩
          · simp at hw
          · simp
        have hany : prs.any (fun w => decide (w < 0)) = true := by
          rw [List.any_eq_true]
          exact ⟨w, hw, by simpa using hneg⟩
        rw [if_neg hne, if_pos (by simpa using hany)]
        exact ⟨_, rfl⟩
    obtain ⟨msg, hmsg⟩ := hwi
    unfold LogitsProcessor.sample_multinomial
    rw [hmsg]
    exact ⟨msg, rfl⟩
  · intro p prs hnn hsum
    have hne : ¬ prs.isEmpty = true := by
      rcases prs with _ | ⟨a, l⟩
      · simp at hsum
      · simp
    have hany : prs.any (fun w => decide (w < 0)) = false := by
      rw [List.any_eq_false]
      intro x hx
      simpa using not_lt.mpr (hnn x hx)
    have hwi : weightedIndexNew prs = Except.ok prs := by
      unfold weightedIndexNew
      rw [if_neg hne, if_neg (by simp [hany]), if_neg (ne_of_gt hsum)]
    have hu := rngNext_unit p.rng
    have hx0 : 0 ≤ (rngNext p.rng).1 * prs.sum := mul_nonneg hu.1 (le_of_lt hsum)
    have hxs : (rngNext p.rng).1 * prs.sum < prs.sum :=
      mul_lt_of_lt_one_left hsum hu.2
    have hpick := pickIndex_pos prs _ hx0 hxs hnn
    refine ⟨pickIndex prs ((rngNext p.rng).1 * prs.sum),
      { p with rng := (rngNext p.rng).2 }, ?_, hpick.1, ne_of_gt hpick.2⟩
    unfold LogitsProcessor.sample_multinomial
    rw [hwi]
  · intro softmax p logits t htemp htop
    unfold LogitsProcessor.sample
    rw [htemp]
    exact if_pos htop

/-- C6 witness: the all-zero weight vector `[0, 0]` makes sample_multinomial
fail with a sampling error. -/
theorem C6_sample_multinomial_witness :
    ((∀ w ∈ ([0, 0] : List ℚ), w = 0) ∨ (∃ w ∈ ([0, 0] : List ℚ), w < 0)) ∧
      ∃ e, procG.sample_multinomial [0, 0] = Except.error (SampleErr.err e) :=
  ⟨Or.inl (by decide),
    C6_sample_multinomial_spec.1 procG [0, 0] (Or.inl (by decide))⟩

/-- C3: the clamping loop of `sample_topp` zeroes (in the original unsorted
vector) exactly those entries whose running sum accumulated before reaching
them in the descending-probability walk already reaches or exceeds `top_p`
(for nonnegative probability vectors), and then samples multinomially from
the modified vector; on `[0.5, 0.3, 0.15, 0.05]` with `top_p = 0.7` the
entries 0.15 and 0.05 are zeroed and the first two remain. -/
theorem C3_sample_topp_spec :
    (∀ (prs : List ℚ) (top_p : ℚ), (∀ x ∈ prs, 0 ≤ x) →
        toppFilter prs top_p = toppZeroSpec prs top_p) ∧
    (∀ (p : LogitsProcessor) (prs : List ℚ) (top_p : ℚ),
        p.sample_topp prs top_p = p.sample_multinomial (toppFilter prs top_p)) ∧
    toppFilter [1/2, 3/10, 3/20, 1/20] (7/10) = [1/2, 3/10, 0, 0] := by
  refine ⟨?_, fun p prs top_p => rfl, ?_⟩
  · intro prs top_p hnn
    have hlen1 : (toppFilter prs top_p).length = prs.length :=
      toppFold_length top_p (argsortDesc prs) 0 prs
    have hlen2 : (toppZeroSpec prs top_p).length = prs.length := by
      simp [toppZeroSpec]
    apply List.ext_getElem (by rw [hlen1, hlen2])
    intro k hk1 hk2
    have hkp : k < prs.length := by rw [← hlen1]; exact hk1
    have hmain := toppFold_getD top_p prs hnn (argsortDesc prs) prs 0
      (argsortDesc_nodup prs)
      (fun i hi => ⟨(mem_argsortDesc prs i).mp hi, rfl⟩) rfl k
    have hL : (toppFilter prs top_p)[k] = (toppFilter prs top_p).getD k 0 :=
      (List.getD_eq_getElem _ 0 hk1).symm
    have hfd : (toppFilter prs top_p).getD k 0
        = ((argsortDesc prs).foldl (toppStep top_p) (0, prs)).2.getD k 0 := rfl
    have hR : (toppZeroSpec prs top_p)[k]
        = if top_p ≤ sortedPrefixSum prs k then 0 else prs.getD k 0 := by
      simp [toppZeroSpec]
    rw [hL, hfd, hmain, hR]
    by_cases hc : top_p ≤ sortedPrefixSum prs k
    · rw [if_pos ⟨(mem_argsortDesc prs k).mpr hkp, by rw [zero_add]; exact hc⟩,
        if_pos hc]
    · rw [if_neg (fun hcon => hc (by
        have h2 := hcon.2
        rw [zero_add] at h2
        exact h2)), if_neg hc]
  · have hsort : List.insertionSort pairGE
        ([1/2, 3/10, 3/20, 1/20] : List ℚ).enum
        = [(0, 1/2), (1, 3/10), (2, 3/20), (3, 1/20)] := by
      norm_num [List.insertionSort, List.orderedInsert, pairGE,
        List.enum, List.enumFrom]
    have hargsort : argsortDesc [1/2, 3/10, 3/20, 1/20] = [0, 1, 2, 3] := by
      unfold argsortDesc
      rw [hsort]
      rfl
    unfold toppFilter
    rw [hargsort]
    norm_num [toppStep, List.getD_cons_zero, List.getD_cons_succ, List.set]

/-- C3 witness: the general clamping characterization applied to the
concrete probability vector of the claim. -/
theorem C3_sample_topp_witness :
    (∀ x ∈ ([1/2, 3/10, 3/20, 1/20] : List ℚ), 0 ≤ x) ∧
      toppFilter [1/2, 3/10, 3/20, 1/20] (7/10)
        = toppZeroSpec [1/2, 3/10, 3/20, 1/20] (7/10) :=
  ⟨by norm_num, C3_sample_topp_spec.1 _ _ (by norm_num)⟩

/-- C4: `sample_argmax` returns an index attaining the largest logit; the
second sorted entry attains the maximum over all other positions; the
`num_ambiguous` counter is incremented exactly when the relative margin
`d = (top1 - top2) / top1` is below 0.05, and the returned token does not
depend on that check.  On `[5, 4.9, 1]` (margin 0.02) the counter is
incremented; on `[5, 1, 0.5]` (margin 0.8) it is not. -/
theorem C4_sample_argmax_spec :
    (∀ (p : LogitsProcessor) (logits : List ℚ), 2 ≤ logits.length →
        ∃ (r : ℕ) (p2 : LogitsProcessor) (m1 m2 : ℚ),
          p.sample_argmax logits = Except.ok (r, p2) ∧
          r < logits.length ∧ logits.getD r 0 = m1 ∧
          (∀ i < logits.length, logits.getD i 0 ≤ m1) ∧
          (∃ j, j < logits.length ∧ j ≠ r ∧ logits.getD j 0 = m2) ∧
          (∀ i < logits.length, i ≠ r → logits.getD i 0 ≤ m2) ∧
          p2.num_ambiguous = p.num_ambiguous +
            (if (m1 - m2) / m1 < 1 / 20 then 1 else 0) ∧
          p2.rng = p.rng ∧ p2.temperature = p.temperature ∧
          p2.top_p = p.top_p) ∧
    (∃ p2, procG.sample_argmax [5, 49/10, 1] = Except.ok (0, p2) ∧
        p2.num_ambiguous = procG.num_ambiguous + 1) ∧
    procG.sample_argmax [5, 1, 1/2] = Except.ok (0, procG) := by
  have hsort1 : List.insertionSort pairGE ([5, 49/10, 1] : List ℚ).enum
      = [(0, 5), (1, 49/10), (2, 1)] := by
    norm_num [List.insertionSort, List.orderedInsert, pairGE,
      List.enum, List.enumFrom]
  have hsort2 : List.insertionSort pairGE ([5, 1, 1/2] : List ℚ).enum
      = [(0, 5), (1, 1), (2, 1/2)] := by
    norm_num [List.insertionSort, List.orderedInsert, pairGE,
      List.enum, List.enumFrom]
  have hc1 : procG.sample_argmax [5, 49/10, 1]
      = Except.ok (0, { procG with num_ambiguous := procG.num_ambiguous + 1 }) := by
    unfold LogitsProcessor.sample_argmax
    rw [hsort1]
    norm_num
  have hc2 : procG.sample_argmax [5, 1, 1/2] = Except.ok (0, procG) := by
    unfold LogitsProcessor.sample_argmax
    rw [hsort2]
    norm_num
  refine ⟨?_,
    ⟨{ procG with num_ambiguous := procG.num_ambiguous + 1 }, hc1, rfl⟩, hc2⟩
  intro p logits hlen2
  have hperm : List.Perm (List.insertionSort pairGE logits.enum) logits.enum :=
    List.perm_insertionSort _ _
  have hsorted : List.Sorted pairGE (List.insertionSort pairGE logits.enum) :=
    List.sorted_insertionSort _ _
  have hslen : (List.insertionSort pairGE logits.enum).length = logits.length := by
    rw [hperm.length_eq, List.enum_length]
  have h0 : List.insertionSort pairGE logits.enum ≠ [] := by
    intro h
    rw [h] at hslen
    simp at hslen
    omega
  obtain ⟨x0, t0, hx0⟩ := List.exists_cons_of_ne_nil h0
  have h1 : t0 ≠ [] := by
    intro h
    rw [hx0, h] at hslen
    simp at hslen
    omega
  obtain ⟨x1, t1, hx1⟩ := List.exists_cons_of_ne_nil h1
  obtain ⟨i0, v0⟩ := x0
  obtain ⟨i1, v1⟩ := x1
  rw [hx1] at hx0
  have hshape : List.insertionSort pairGE logits.enum = (i0, v0) :: (i1, v1) :: t1 := hx0
  rw [hshape] at hperm hsorted
  have hnd : ((i0, v0) :: (i1, v1) :: t1).Nodup :=
    hperm.nodup_iff.mpr (enum_nodup logits)
  have hmem0 : (i0, v0) ∈ logits.enum := hperm.subset (List.mem_cons_self _ _)
  have hmem1 : (i1, v1) ∈ logits.enum :=
    hperm.subset (List.mem_cons_of_mem _ (List.mem_cons_self _ _))
  obtain ⟨hi0lt, hget0⟩ := mem_enum_getD hmem0
  obtain ⟨hi1lt, hget1⟩ := mem_enum_getD hmem1
  have hne01 : i1 ≠ i0 := by
    intro h
    subst h
    rw [List.mk_mem_enum_iff_getElem?] at hmem0 hmem1
    rw [hmem0] at hmem1
    have hv : v0 = v1 := by
      exact Option.some_injective _ hmem1
    rw [hv] at hnd
    exact (List.nodup_cons.mp hnd).1 (List.mem_cons_self _ _)
  have hmax : ∀ i < logits.length, logits.getD i 0 ≤ v0 := by
    intro i hi
    have hmem : (i, logits.getD i 0) ∈ logits.enum := by
      rw [List.mk_mem_enum_iff_getElem?, List.getElem?_eq_getElem hi,
        List.getD_eq_getElem _ 0 hi]
    have hmem2 : (i, logits.getD i 0) ∈ (i0, v0) :: (i1, v1) :: t1 :=
      hperm.mem_iff.mpr hmem
    rcases List.mem_cons.mp hmem2 with h | h
    · rw [Prod.mk.injEq] at h
      rw [h.2]
    · exact List.rel_of_sorted_cons hsorted _ h
  have hmax2 : ∀ i < logits.length, i ≠ i0 → logits.getD i 0 ≤ v1 := by
    intro i hi hne
    have hmem : (i, logits.getD i 0) ∈ logits.enum := by
      rw [List.mk_mem_enum_iff_getElem?, List.getElem?_eq_getElem hi,
        List.getD_eq_getElem _ 0 hi]
    have hmem2 : (i, logits.getD i 0) ∈ (i0, v0) :: (i1, v1) :: t1 :=
      hperm.mem_iff.mpr hmem
    rcases List.mem_cons.mp hmem2 with h | h
    · rw [Prod.mk.injEq] at h
      exact absurd h.1 hne
    · rcases List.mem_cons.mp h with h2 | h2
      · rw [Prod.mk.injEq] at h2
        rw [h2.2]
      · exact List.rel_of_sorted_cons (List.Sorted.of_cons hsorted) _ h2
  have heval : p.sample_argmax logits =
      if (v0 - v1) / v0 < 1 / 20 then
        Except.ok (i0, { p with num_ambiguous := p.num_ambiguous + 1 })
      else Except.ok (i0, p) := by
    unfold LogitsProcessor.sample_argmax
    rw [hshape]
  by_cases hd : (v0 - v1) / v0 < 1 / 20
  · refine ⟨i0, { p with num_ambiguous := p.num_ambiguous + 1 }, v0, v1,
      by rw [heval, if_pos hd], hi0lt, hget0, hmax,
      ⟨i1, hi1lt, hne01, hget1⟩, hmax2, ?_, rfl, rfl, rfl⟩
    rw [if_pos hd]
  · refine ⟨i0, p, v0, v1,
      by rw [heval, if_neg hd], hi0lt, hget0, hmax,
      ⟨i1, hi1lt, hne01, hget1⟩, hmax2, ?_, rfl, rfl, rfl⟩
    rw [if_neg hd, Nat.add_zero]

/-- C4 witness: the general statement applied to a near-tie input. -/
theorem C4_sample_argmax_witness :
    2 ≤ ([5, 49/10, 1] : List ℚ).length ∧
      ∃ (r : ℕ) (p2 : LogitsProcessor) (m1 m2 : ℚ),
        procG.sample_argmax [5, 49/10, 1] = Except.ok (r, p2) ∧
        r < ([5, 49/10, 1] : List ℚ).length ∧
        ([5, 49/10, 1] : List ℚ).getD r 0 = m1 ∧
        (∀ i < ([5, 49/10, 1] : List ℚ).length,
            ([5, 49/10, 1] : List ℚ).getD i 0 ≤ m1) ∧
        (∃ j, j < ([5, 49/10, 1] : List ℚ).length ∧ j ≠ r ∧
            ([5, 49/10, 1] : List ℚ).getD j 0 = m2) ∧
        (∀ i < ([5, 49/10, 1] : List ℚ).length, i ≠ r →
            ([5, 49/10, 1] : List ℚ).getD i 0 ≤ m2) ∧
        p2.num_ambiguous = procG.num_ambiguous +
          (if (m1 - m2) / m1 < 1 / 20 then 1 else 0) ∧
        p2.rng = procG.rng ∧ p2.temperature = procG.temperature ∧
        p2.top_p = procG.top_p :=
  ⟨by decide, C4_sample_argmax_spec.1 procG [5, 49/10, 1] (by decide)⟩

/-- C7: two LogitsProcessor instances constructed from the same
SamplingParams (the seed is the fixed constant 42) produce identical sampled
token sequences on identical logits input sequences. -/
theorem C7_sampler_determinism (softmax : List ℚ → List ℚ)
    (sp : SamplingParams) (p1 p2 : LogitsProcessor)
    (h1 : p1 = LogitsProcessor.new sp) (h2 : p2 = LogitsProcessor.new sp)
    (inputs : List (List ℚ)) :
    runSamples softmax p1 inputs = runSamples softmax p2 inputs := by
  rw [h1, h2]

/-- C7 witness: two freshly constructed greedy processors agree on a
concrete input sequence. -/
theorem C7_sampler_determinism_witness :
    LogitsProcessor.new ⟨0, 1, 1, false⟩ = LogitsProcessor.new ⟨0, 1, 1, false⟩ ∧
      runSamples id (LogitsProcessor.new ⟨0, 1, 1, false⟩) [[5, 1]]
        = runSamples id (LogitsProcessor.new ⟨0, 1, 1, false⟩) [[5, 1]] :=
  ⟨rfl, C7_sampler_determinism id ⟨0, 1, 1, false⟩ _ _ rfl rfl [[5, 1]]⟩

/-- C10: in greedy mode (`temperature = None`, produced by `new` whenever
the configured temperature is below `SAMPLING_EPS`), `sample` delegates to
`sample_argmax`, which unconditionally reads the top two entries of the
sorted logits vector and therefore panics on any logits input with fewer
than two entries; with at least two entries it succeeds. -/
theorem C10_greedy_needs_two_entries :
    (∀ (p : LogitsProcessor) (softmax : List ℚ → List ℚ) (logits : List ℚ),
        p.temperature = none → logits.length < 2 →
        p.sample softmax logits
          = Except.error (SampleErr.panic "index out of bounds")) ∧
    (∀ sp : SamplingParams, sp.temperature < SAMPLING_EPS →
        (LogitsProcessor.new sp).temperature = none) ∧
    (∀ (p : LogitsProcessor) (softmax : List ℚ → List ℚ) (logits : List ℚ),
        p.temperature = none → 2 ≤ logits.length →
        ∃ tp, p.sample softmax logits = Except.ok tp) := by
  refine ⟨?_, ?_, ?_⟩
  · intro p softmax logits htemp hlen
    unfold LogitsProcessor.sample
    rw [htemp]
    rcases logits with _ | ⟨a, _ | ⟨b, rest⟩⟩
    · rfl
    · rfl
    · simp only [List.length_cons] at hlen
      omega
  · intro sp h
    simp [LogitsProcessor.new, h]
  · intro p softmax logits htemp hlen
    have hslen : (List.insertionSort pairGE logits.enum).length = logits.length := by
      rw [(List.perm_insertionSort pairGE logits.enum).length_eq, List.enum_length]
    have h0 : List.insertionSort pairGE logits.enum ≠ [] := by
      intro h
      rw [h] at hslen
      simp at hslen
      omega
    obtain ⟨x0, t0, hx0⟩ := List.exists_cons_of_ne_nil h0
    have h1 : t0 ≠ [] := by
      intro h
      rw [hx0, h] at hslen
      simp at hslen
      omega
    obtain ⟨x1, t1, hx1⟩ := List.exists_cons_of_ne_nil h1
    obtain ⟨i0, v0⟩ := x0
    obtain ⟨i1, v1⟩ := x1
    unfold LogitsProcessor.sample
    rw [htemp]
    unfold LogitsProcessor.sample_argmax
    rw [hx0, hx1]
    by_cases hd : (v0 - v1) / v0 < 1 / 20
    · exact ⟨_, if_pos hd⟩
    · exact ⟨_, if_neg hd⟩

lemma procG_temperature : procG.temperature = none := by
  unfold procG LogitsProcessor.new
  rw [if_pos (by norm_num [SAMPLING_EPS])]

/-- C10 witness: a greedy processor panics on the single-entry logits [5]. -/
theorem C10_greedy_needs_two_entries_witness :
    procG.temperature = none ∧ ([(5 : ℚ)].length < 2) ∧
      procG.sample id [(5 : ℚ)]
        = Except.error (SampleErr.panic "index out of bounds") :=
  ⟨procG_temperature, by decide,
    C10_greedy_needs_two_entries.1 procG id [5] procG_temperature (by decide)⟩

end Aici
